import Mathlib

/-!
Verification of the Movie-Recommendation-System core (`src/recommender.py`)
against its natural-language specification.

The Python functions `clean_title`, `search_movie` and `find_similar_movies`
are shallowly embedded as executable Lean definitions over lists.  Machine
floats are modelled as exact rationals (`ℚ`): all numeric values that occur in
the code (counts divided by counts) are exactly representable, and the code's
explicit zero-denominator branch is modelled by the same branch.  Pandas /
NumPy operations are modelled as follows:

* a DataFrame is a `List` of rows (structures);
* `Series.unique` / index keys are modelled with `List.dedup`; only
  membership and length (number of distinct elements) of these lists are
  relied on, so the surviving-occurrence convention does not matter;
* `value_counts` is modelled as the association list mapping each distinct
  key to its multiplicity; pandas returns the counts sorted descending with
  unspecified tie order, and every property proved here is independent of
  the key order;
* `sort_values` / `argsort` use pandas' and NumPy's default `quicksort`,
  whose order on tied keys is unspecified; they are modelled by a stable
  insertion sort (for `argsort`, stable ascending with the index as the
  underlying sequence), which is one of the orders the implementations may
  produce (NumPy's small-array insertion sort produces exactly this one);
* `merge(..., how := left)` keeps every left row, duplicating it per matching
  right row and filling missing columns with null (`Option.none`).
-/

/-! ### Title normalizer (`clean_title`) -/

/-- Whitespace characters recognised by Python's `str.strip` and the regex
class matched by a whitespace run, restricted to ASCII (the input at the
point where these are applied is pure ASCII). -/
def pyIsSpace (c : Char) : Bool :=
  decide (c = ' ' ∨ c = Char.ofNat 9 ∨ c = Char.ofNat 10 ∨ c = Char.ofNat 13 ∨
    c = Char.ofNat 11 ∨ c = Char.ofNat 12)

/-- Per-character NFKD decomposition, restricted to the characters exercised
by the specification's examples: ASCII characters are NFKD-stable, and
the letter e-acute decomposes into the plain letter followed by the
combining acute accent (code point 769).  Characters outside this
fragment are left unchanged; they are removed by the subsequent ASCII
filter exactly as real NFKD output of non-ASCII base characters would be,
and no property proved below depends on their decomposition. -/
def nfkdChar (c : Char) : List Char :=
  if c = 'é' then ['e', Char.ofNat 769] else [c]

/-- Model of `str.encode(ascii, ignore).decode(ascii)`: drop every
non-ASCII character. -/
def asciiIgnore (cs : List Char) : List Char :=
  cs.filter (fun c => decide (c.toNat < 128))

/-- ASCII lower-casing; the input at this pipeline stage is pure ASCII, on
which Python's `str.lower` acts exactly like this. -/
def pyToLower (c : Char) : Char :=
  if 65 ≤ c.toNat ∧ c.toNat ≤ 90 then Char.ofNat (c.toNat + 32) else c

/-- Model of Python's `str.strip`: remove leading and trailing whitespace. -/
def pyStrip (cs : List Char) : List Char :=
  ((cs.dropWhile pyIsSpace).reverse.dropWhile pyIsSpace).reverse

/-- The character class kept by the substitution regex: ASCII digits,
lowercase ASCII letters, and the space. -/
def isKeptChar (c : Char) : Bool :=
  decide ((48 ≤ c.toNat ∧ c.toNat ≤ 57) ∨ (97 ≤ c.toNat ∧ c.toNat ≤ 122) ∨ c = ' ')

/-- Model of substituting every run of characters outside `isKeptChar` with a
single space.  Each offending character is replaced by one space here; the
subsequent whitespace collapse merges adjacent spaces, so the final string
is identical to the run-at-a-time replacement the regex performs. -/
def subNonAlnum (cs : List Char) : List Char :=
  cs.map (fun c => if isKeptChar c then c else ' ')

/-- Replace every maximal run of whitespace by a single space; the flag
records whether the previously emitted character was a space. -/
def collapseWsAux : Bool → List Char → List Char
  | _, [] => []
  | prevSpace, c :: rest =>
    if pyIsSpace c then
      if prevSpace then collapseWsAux true rest
      else ' ' :: collapseWsAux true rest
    else c :: collapseWsAux false rest

/-- Model of substituting every whitespace run with a single space. -/
def collapseWs (cs : List Char) : List Char :=
  collapseWsAux false cs

/-- Embedding of `clean_title` (recommender.py lines 126-139) on a string
input (`pd.isna` is false on strings): NFKD-normalize, drop non-ASCII,
lowercase, strip, replace non-alphanumerics by spaces, collapse whitespace. -/
def clean_title (s : List Char) : List Char :=
  collapseWs (subNonAlnum (pyStrip ((asciiIgnore (s.flatMap nfkdChar)).map pyToLower)))

/-- `true` iff the list has no two adjacent whitespace characters. -/
def noDoubleSpace : List Char → Bool
  | c1 :: c2 :: rest => (!(pyIsSpace c1 && pyIsSpace c2)) && noDoubleSpace (c2 :: rest)
  | _ => true

/-! ### Data model -/

/-- A catalog row of `movies.csv`. -/
structure Movie where
  movieId : ℤ
  title : String
  genres : String
deriving DecidableEq

/-- A row of `ratings.csv`. -/
structure Rating where
  userId : ℤ
  movieId : ℤ
  rating : ℚ
deriving DecidableEq

/-- A row of the intermediate `rec_percentages` frame (before the catalog
merge): the movieId index together with the `similar`, `all` and `score`
columns. -/
structure RecPre where
  movieId : ℤ
  similar : ℚ
  all : ℚ
  score : ℚ
deriving DecidableEq

/-- A row of the frame returned by `find_similar_movies`; `title` and
`genres` are `none` when the left merge found no catalog row. -/
structure RecRow where
  score : ℚ
  similar : ℚ
  all : ℚ
  movieId : ℤ
  title : Option String
  genres : Option String
deriving DecidableEq

/-! ### Text search (`search_movie`) -/

/-- Maximum of a NumPy array (`sims.max()`); only ever applied to non-empty
lists in the embedded code path. -/
def listMax : List ℚ → ℚ
  | [] => 0
  | a :: as => as.foldl max a

/-- Insert into an ascending-by-key list, before the first element of
greater-or-equal key (stable: an element inserted from the left of the
original sequence precedes equal-key elements from its right). -/
def insertAsc (key : α → ℚ) (a : α) : List α → List α
  | [] => [a]
  | b :: bs => if key a ≤ key b then a :: b :: bs else b :: insertAsc key a bs

/-- Stable ascending insertion sort by key. -/
def sortAsc (key : α → ℚ) : List α → List α
  | [] => []
  | a :: as => insertAsc key a (sortAsc key as)

/-- Model of `sims.argsort()`: the indices `0..n-1` sorted so that the
similarity values ascend.  NumPy's default quicksort has unspecified tie
order; the stable order (equal values keep index order) is the one its
small-array insertion sort produces and is used as the model. -/
def argsort (sims : List ℚ) : List ℕ :=
  sortAsc (fun i => sims.getD i 0) (List.range sims.length)

/-- Model of the Python slice `l[-n:]`: the last `n` elements, except that
`n = 0` (the slice `[-0:]` = `[0:]`) yields the whole list. -/
def tailSlice (n : ℕ) (l : List α) : List α :=
  if n = 0 then l else l.drop (l.length - n)

/-- The index list `idx = sims.argsort()[-top_n:][::-1]` of
`search_movie` (recommender.py line 167). -/
def searchIdx (sims : List ℚ) (top_n : ℕ) : List ℕ :=
  (tailSlice top_n (argsort sims)).reverse

/-- Embedding of `search_movie` (recommender.py lines 154-170).  The TF-IDF
projection and cosine similarity are computed by the external scikit-learn
library; their output is the parameter `sims`, the similarity of the
cleaned query against each catalog row (`sims.length = movies.length` for
the real callers).  Returns the selected rows each annotated with the
`_score` column. -/
def search_movie (query : List Char) (movies : List Movie) (sims : List ℚ)
    (top_n : ℕ) (min_score : ℚ) : List (Movie × ℚ) :=
  if (pyStrip (clean_title query)).isEmpty then []
  else if sims.length = 0 then []
  else if listMax sims < min_score then []
  else (searchIdx sims top_n).map (fun i => (movies.getD i ⟨0, "", ""⟩, sims.getD i 0))

/-! ### Co-preference ranker (`find_similar_movies`) -/

/-- The fan set (recommender.py line 179): distinct users who rated the seed
movie at least 4. -/
def similarUsers (ratings : List Rating) (seed : ℤ) : List ℤ :=
  ((ratings.filter (fun r => decide (r.movieId = seed ∧ 4 ≤ r.rating))).map
    (fun r => r.userId)).dedup

/-- `sim_recs` (line 184): one movieId per rating row whose user is a fan and
whose rating is at least 4 (multiplicities preserved, as in the series). -/
def simRecs (ratings : List Rating) (seed : ℤ) : List ℤ :=
  (ratings.filter (fun r => decide (r.userId ∈ similarUsers ratings seed ∧ 4 ≤ r.rating))).map
    (fun r => r.movieId)

/-- `sim_recs.value_counts() / len(similar_users)` (line 187): each distinct
co-liked movie with the fraction of the fan count its rows represent. -/
def simFracAll (ratings : List Rating) (seed : ℤ) : List (ℤ × ℚ) :=
  (simRecs ratings seed).dedup.map
    (fun m => (m, ((simRecs ratings seed).count m : ℚ) / ((similarUsers ratings seed).length : ℚ)))

/-- `sim_frac[sim_frac > min_similar_fraction]` (line 188). -/
def simFrac (ratings : List Rating) (seed : ℤ) (minFrac : ℚ) : List (ℤ × ℚ) :=
  (simFracAll ratings seed).filter (fun p => decide (minFrac < p.2))

/-- `all_recs` (line 193): rating rows of value at least 4 whose movie
survived the `sim_frac` filter. -/
def allRecs (ratings : List Rating) (seed : ℤ) (minFrac : ℚ) : List Rating :=
  ratings.filter
    (fun r => decide (r.movieId ∈ (simFrac ratings seed minFrac).map Prod.fst ∧ 4 ≤ r.rating))

/-- `all_recs["userId"].nunique()` (line 194). -/
def numAllUsers (ratings : List Rating) (seed : ℤ) (minFrac : ℚ) : ℕ :=
  ((allRecs ratings seed minFrac).map (fun r => r.userId)).dedup.length

/-- `all_recs["movieId"].value_counts() / num_all_users` (line 197). -/
def allFracList (ratings : List Rating) (seed : ℤ) (minFrac : ℚ) : List (ℤ × ℚ) :=
  ((allRecs ratings seed minFrac).map (fun r => r.movieId)).dedup.map
    (fun m => (m, (((allRecs ratings seed minFrac).map (fun r => r.movieId)).count m : ℚ) /
      (numAllUsers ratings seed minFrac : ℚ)))

/-- First value stored under a key in an association list, or a default. -/
def lookupD (l : List (ℤ × ℚ)) (k : ℤ) (d : ℚ) : ℚ :=
  match l with
  | [] => d
  | p :: rest => if p.1 = k then p.2 else lookupD rest k d

/-- The index of the `pd.concat([sim_frac, all_frac], axis=1)` frame (line
199): the union of the two key sets. -/
def recKeys (ratings : List Rating) (seed : ℤ) (minFrac : ℚ) : List ℤ :=
  ((simFrac ratings seed minFrac).map Prod.fst ++ (allFracList ratings seed minFrac).map Prod.fst).dedup

/-- `rec_percentages` after `fillna(0)`, the score column (lines 199-203):
missing alignment cells become 0, `score = similar / all` when `all > 0`,
and the NaN produced otherwise is replaced by 0 by
`replace([inf, -inf], nan).fillna(0)` (infinities cannot arise from the
guarded division, and do not exist in exact arithmetic). -/
def recPercentages (ratings : List Rating) (seed : ℤ) (minFrac : ℚ) : List RecPre :=
  (recKeys ratings seed minFrac).map (fun m =>
    let s := lookupD (simFrac ratings seed minFrac) m 0
    let a := lookupD (allFracList ratings seed minFrac) m 0
    ⟨m, s, a, if 0 < a then s / a else 0⟩)

/-- Insert into a descending-by-key list, before the first element of
smaller-or-equal key (stable descending insertion). -/
def insertDesc (key : α → ℚ) (a : α) : List α → List α
  | [] => [a]
  | b :: bs => if key b ≤ key a then a :: b :: bs else b :: insertDesc key a bs

/-- Stable descending insertion sort by key; models
`sort_values(score, ascending := False)` (line 204), whose default
quicksort has unspecified tie order — no property proved below depends on
the order of tied rows. -/
def sortDesc (key : α → ℚ) : List α → List α
  | [] => []
  | a :: as => insertDesc key a (sortDesc key as)

/-- `df.merge(movies_df, on := movieId, how := left)` (line 207) followed by
the column selection (line 209): every ranking row is kept; a row whose
movieId matches no catalog row keeps null title and genres; a row matching
several catalog rows is duplicated per match. -/
def leftMerge (rows : List RecPre) (movies : List Movie) : List RecRow :=
  rows.flatMap (fun pre =>
    let ms := movies.filter (fun mv => decide (mv.movieId = pre.movieId))
    if ms.isEmpty then [⟨pre.score, pre.similar, pre.all, pre.movieId, none, none⟩]
    else ms.map (fun mv => ⟨pre.score, pre.similar, pre.all, pre.movieId, some mv.title, some mv.genres⟩))

/-- Embedding of `find_similar_movies` (recommender.py lines 173-210). -/
def find_similar_movies (seed : ℤ) (movies : List Movie) (ratings : List Rating)
    (minFrac : ℚ) : List RecRow :=
  if (similarUsers ratings seed).isEmpty then []
  else if (simRecs ratings seed).isEmpty then []
  else if (simFrac ratings seed minFrac).isEmpty then []
  else if numAllUsers ratings seed minFrac = 0 then []
  else leftMerge ((sortDesc (fun p => p.score) (recPercentages ratings seed minFrac)).take 20) movies

/-! ### Fixtures -/

/-- The ratings fixture of spec section 8:
`{(u1,10,5),(u1,20,5),(u2,10,5),(u2,20,4),(u3,10,3)}`. -/
def fixtureRatings : List Rating :=
  [⟨1, 10, 5⟩, ⟨1, 20, 5⟩, ⟨2, 10, 5⟩, ⟨2, 20, 4⟩, ⟨3, 10, 3⟩]

/-- A catalog containing both fixture movies. -/
def fixtureMovies : List Movie :=
  [⟨10, "Movie10", "Drama"⟩, ⟨20, "Movie20", "Action"⟩]

/-- A catalog missing movie 20, to exercise the left merge. -/
def catalogMissing20 : List Movie :=
  [⟨10, "Movie10", "Drama"⟩]

/-- Ratings with two rows for the same (user, movie) pair. -/
def dupRatings : List Rating :=
  [⟨1, 10, 5⟩, ⟨1, 20, 5⟩, ⟨1, 20, 5⟩]

/-! ### Lemmas: whitespace collapse -/

/-- Whether a character list starts with whitespace. -/
def headSpace : List Char → Bool
  | [] => false
  | c :: _ => pyIsSpace c

lemma noDoubleSpace_cons (c : Char) (l : List Char) :
    noDoubleSpace (c :: l) = ((!(pyIsSpace c && headSpace l)) && noDoubleSpace l) := by
  cases l with
  | nil => simp [noDoubleSpace, headSpace]
  | cons d r => rfl

lemma collapseWsAux_ok (cs : List Char) : ∀ b : Bool,
    noDoubleSpace (collapseWsAux b cs) = true ∧
      (b = true → headSpace (collapseWsAux b cs) = false) := by
  induction cs with
  | nil => exact fun b => ⟨rfl, fun _ => rfl⟩
  | cons c rest ih =>
    intro b
    by_cases hc : pyIsSpace c = true
    · cases b with
      | true =>
        have h1 : collapseWsAux true (c :: rest) = collapseWsAux true rest := by
          simp [collapseWsAux, hc]
        rw [h1]
        exact ⟨(ih true).1, fun _ => (ih true).2 rfl⟩
      | false =>
        have h1 : collapseWsAux false (c :: rest) = ' ' :: collapseWsAux true rest := by
          simp [collapseWsAux, hc]
        rw [h1]
        refine ⟨?_, fun h => absurd h (by decide)⟩
        rw [noDoubleSpace_cons, (ih true).2 rfl, (ih true).1]
        simp
    · have hc2 : pyIsSpace c = false := by
        cases h : pyIsSpace c
        · rfl
        · exact absurd h hc
      have h1 : collapseWsAux b (c :: rest) = c :: collapseWsAux false rest := by
        simp [collapseWsAux, hc2]
      rw [h1]
      refine ⟨?_, fun _ => ?_⟩
      · rw [noDoubleSpace_cons, (ih false).1, hc2]
        simp
      · simp [headSpace, hc2]

/-! ### Claim C3 -/

/-- C3 (corrected), counterexample: the claim asserts
`clean_title("Amélie (1996)") = "amelie 1996"`, but the code strips the
title before replacing non-alphanumerics, so the closing parenthesis
becomes a trailing space and the output is `"amelie 1996 "`. -/
theorem clean_title_amelie_not_trimmed :
    clean_title (("Amélie (1996)").data) ≠ ("amelie 1996").data := by decide

/-- C3 (amended): for every input string the output of `clean_title` never
contains two adjacent whitespace characters, but it may retain a single
leading or trailing space when the stripped title begins or ends with a
non-alphanumeric character; in particular
`clean_title("Amélie (1996)") = "amelie 1996 "` with a trailing space. -/
theorem clean_title_collapsed_and_amelie :
    (∀ s : List Char, noDoubleSpace (clean_title s) = true) ∧
      clean_title (("Amélie (1996)").data) = ("amelie 1996 ").data := by
  refine ⟨fun s => ?_, by decide⟩
  exact (collapseWsAux_ok (subNonAlnum (pyStrip
    ((asciiIgnore (s.flatMap nfkdChar)).map pyToLower))) false).1

/-! ### Claim C7 -/

section ConcreteEvaluation

/- The Batteries rational arithmetic operations are `@[irreducible]`, which
blocks elaborator-side evaluation of `decide` on the concrete fixtures;
re-expose their definitions locally for these computations. -/
attribute [local semireducible] Rat.mul Rat.inv Rat.add Rat.sub Rat.ofScientific

/-- C7 (confirmed): on the fixture ratings with `min_similar_fraction = 0`
and a catalog containing movies 10 and 20, the fan set of movie 10 is
`{u1, u2}` (u3 is excluded, its rating 3 is below 4) and the returned row
for movie 20 has `similarFraction = 1`; the full returned frame is
computed explicitly. -/
theorem fixture_fan_set_and_movie20_fraction :
    similarUsers fixtureRatings 10 = [1, 2] ∧
      find_similar_movies 10 fixtureMovies fixtureRatings 0 =
        [⟨1, 1, 1, 10, some ("Movie10"), some ("Drama")⟩,
         ⟨1, 1, 1, 20, some ("Movie20"), some ("Action")⟩] := by
  exact ⟨by decide, by decide⟩

/-! ### Counterexamples for C1, C2, C4, C5, C10 -/

/-- C1 (corrected), counterexample: with the catalog lacking movie 20, the
returned frame still contains the row for movie 20 — the left merge keeps
rows whose movieId has no catalog match, with null title and genres,
instead of dropping them. -/
theorem find_similar_keeps_unmatched_row :
    (find_similar_movies 10 catalogMissing20 fixtureRatings 0).any
      (fun r => decide (r.title = none ∧ r.movieId ∉ catalogMissing20.map Movie.movieId)) =
      true := by decide

/-- C2 (corrected), counterexample: with similarities `[0, 1]`,
`top_n = 2` and `min_score = 1/2`, the guard only checks the maximum, and
the returned frame contains a row whose score 0 is strictly below
`min_score`. -/
theorem search_returns_row_below_min_score :
    (search_movie (("a").data) [⟨1, ("A"), ("G1")⟩, ⟨2, ("B"), ("G2")⟩] [0, 1] 2 (1 / 2)).any
      (fun p => decide (p.2 < 1 / 2)) = true := by decide

/-- C4 (corrected), counterexample: two catalog rows with equal similarity 1
are returned in reverse catalog order (movie 2 before movie 1) with equal
— not strictly descending — scores: the descending slice `[::-1]`
reverses the ascending argsort, so ties break toward the later row. -/
theorem search_tie_order_reversed :
    search_movie (("a").data) [⟨1, ("A"), ("G")⟩, ⟨2, ("A"), ("G")⟩] [1, 1] 2 0 =
      [(⟨2, ("A"), ("G")⟩, 1), (⟨1, ("A"), ("G")⟩, 1)] := by decide

/-- C5 (corrected), counterexample: with two rating rows for the pair
(user 1, movie 20), `value_counts` counts rows, not users, and the
returned row for movie 20 has `similarFraction = 2 > 1`. -/
theorem dup_ratings_fraction_exceeds_one :
    (find_similar_movies 10 fixtureMovies dupRatings 0).any
      (fun r => decide (1 < r.similar)) = true := by decide

/-- C10 (corrected), counterexample: at `top_n = 0` the Python slice
`[-0:]` selects the whole array, so a one-movie catalog passing the
threshold yields 1 row where the claim demands exactly 0; and a
whitespace-only query short-circuits to an empty result even though the
maximum similarity 1 exceeds `min_score = 0` and the catalog has at least
`top_n = 1` movies. -/
theorem search_topn_zero_and_empty_query :
    (search_movie (("a").data) [⟨1, ("A"), ("G")⟩] [1] 0 0).length = 1 ∧
      search_movie ((" ").data) [⟨1, ("A"), ("G")⟩] [1] 1 0 = [] := by
  exact ⟨by decide, by decide⟩

end ConcreteEvaluation

/-! ### Lemmas: insertion sorts -/

lemma mem_insertAsc {key : α → ℚ} {a x : α} {l : List α} :
    x ∈ insertAsc key a l ↔ x = a ∨ x ∈ l := by
  induction l with
  | nil => simp [insertAsc]
  | cons b bs ih =>
    by_cases h : key a ≤ key b
    · simp only [insertAsc, if_pos h, List.mem_cons]
    · simp only [insertAsc, if_neg h, List.mem_cons, ih]
      tauto

lemma length_insertAsc (key : α → ℚ) (a : α) (l : List α) :
    (insertAsc key a l).length = l.length + 1 := by
  induction l with
  | nil => rfl
  | cons b bs ih =>
    by_cases h : key a ≤ key b
    · simp [insertAsc, if_pos h]
    · simp only [insertAsc, if_neg h, List.length_cons, ih]

lemma length_sortAsc (key : α → ℚ) (l : List α) : (sortAsc key l).length = l.length := by
  induction l with
  | nil => rfl
  | cons a as ih => simp [sortAsc, length_insertAsc, ih]

lemma mem_sortAsc {key : α → ℚ} {x : α} {l : List α} : x ∈ sortAsc key l ↔ x ∈ l := by
  induction l with
  | nil => simp [sortAsc]
  | cons a as ih => simp [sortAsc, mem_insertAsc, ih]

lemma insertAsc_pairwise {key : ℕ → ℚ} {a : ℕ} {l : List ℕ}
    (hl : l.Pairwise (fun i j => key i < key j ∨ (key i = key j ∧ i < j)))
    (ha : ∀ b ∈ l, a < b) :
    (insertAsc key a l).Pairwise (fun i j => key i < key j ∨ (key i = key j ∧ i < j)) := by
  induction l with
  | nil => simp [insertAsc]
  | cons b bs ih =>
    rcases List.pairwise_cons.1 hl with ⟨hb, hbs⟩
    by_cases h : key a ≤ key b
    · simp only [insertAsc, if_pos h]
      refine List.pairwise_cons.2 ⟨?_, hl⟩
      intro c hc
      rcases List.mem_cons.1 hc with rfl | hcbs
      · rcases lt_or_eq_of_le h with h1 | h1
        · exact Or.inl h1
        · exact Or.inr ⟨h1, ha c (List.mem_cons_self c bs)⟩
      · have hkey : key b ≤ key c := by
          rcases hb c hcbs with h2 | ⟨h2, _⟩
          · exact le_of_lt h2
          · exact le_of_eq h2
        rcases lt_or_eq_of_le (le_trans h hkey) with h3 | h3
        · exact Or.inl h3
        · exact Or.inr ⟨h3, ha c (List.mem_cons_of_mem b hcbs)⟩
    · simp only [insertAsc, if_neg h]
      have hba : key b < key a := lt_of_not_le h
      refine List.pairwise_cons.2
        ⟨?_, ih hbs (fun c hc => ha c (List.mem_cons_of_mem b hc))⟩
      intro c hc
      rcases mem_insertAsc.1 hc with rfl | hcbs
      · exact Or.inl hba
      · exact hb c hcbs

lemma sortAsc_pairwise {key : ℕ → ℚ} {l : List ℕ} (hl : l.Pairwise (· < ·)) :
    (sortAsc key l).Pairwise (fun i j => key i < key j ∨ (key i = key j ∧ i < j)) := by
  induction l with
  | nil => simp [sortAsc]
  | cons a as ih =>
    rcases List.pairwise_cons.1 hl with ⟨ha, has⟩
    exact insertAsc_pairwise (ih has) (fun b hb => ha b (mem_sortAsc.1 hb))

lemma argsort_pairwise (sims : List ℚ) :
    (argsort sims).Pairwise
      (fun i j => sims.getD i 0 < sims.getD j 0 ∨ (sims.getD i 0 = sims.getD j 0 ∧ i < j)) :=
  sortAsc_pairwise (List.pairwise_lt_range _)

lemma length_argsort (sims : List ℚ) : (argsort sims).length = sims.length := by
  unfold argsort
  rw [length_sortAsc, List.length_range]

lemma searchIdx_pairwise (sims : List ℚ) (top_n : ℕ) :
    (searchIdx sims top_n).Pairwise
      (fun i j => sims.getD j 0 < sims.getD i 0 ∨ (sims.getD j 0 = sims.getD i 0 ∧ j < i)) := by
  have h2 : (tailSlice top_n (argsort sims)).Pairwise
      (fun i j => sims.getD i 0 < sims.getD j 0 ∨ (sims.getD i 0 = sims.getD j 0 ∧ i < j)) := by
    unfold tailSlice
    by_cases h : top_n = 0
    · simpa [h] using argsort_pairwise sims
    · rw [if_neg h]
      exact (argsort_pairwise sims).sublist (List.drop_sublist _ _)
  exact List.pairwise_reverse.2 h2

/-! ### Claims C2, C4, C10 -/

/-- C2 (amended): `search_movie` returns a non-empty result only when the
maximum similarity over the catalog is at least `min_score`; individual
returned rows may score strictly below `min_score`, since only the
maximum is checked against the threshold. -/
theorem search_nonempty_implies_max_above_min_score (query : List Char)
    (movies : List Movie) (sims : List ℚ) (top_n : ℕ) (min_score : ℚ)
    (hne : search_movie query movies sims top_n min_score ≠ []) :
    min_score ≤ listMax sims := by
  unfold search_movie at hne
  by_cases h1 : (pyStrip (clean_title query)).isEmpty = true
  · rw [if_pos h1] at hne
    exact absurd rfl hne
  · rw [if_neg h1] at hne
    by_cases h2 : sims.length = 0
    · rw [if_pos h2] at hne
      exact absurd rfl hne
    · rw [if_neg h2] at hne
      by_cases h3 : listMax sims < min_score
      · rw [if_pos h3] at hne
        exact absurd rfl hne
      · exact le_of_not_lt h3

/-- C4 (amended): the rows returned by `search_movie` are ordered by
non-increasing (not strictly decreasing) similarity score, and among
rows with equal scores the movie later in the catalog comes first: the
selected index list descends by similarity with ties broken by larger
index, because the `[::-1]` slice reverses the ascending argsort. -/
theorem search_sorted_desc_ties_later_first (query : List Char) (movies : List Movie)
    (sims : List ℚ) (top_n : ℕ) (min_score : ℚ) :
    (searchIdx sims top_n).Pairwise
      (fun i j => sims.getD j 0 < sims.getD i 0 ∨ (sims.getD j 0 = sims.getD i 0 ∧ j < i)) ∧
      (search_movie query movies sims top_n min_score).Pairwise
        (fun p q => q.2 ≤ p.2) := by
  refine ⟨searchIdx_pairwise sims top_n, ?_⟩
  unfold search_movie
  by_cases h1 : (pyStrip (clean_title query)).isEmpty = true
  · rw [if_pos h1]
    exact List.Pairwise.nil
  · rw [if_neg h1]
    by_cases h2 : sims.length = 0
    · rw [if_pos h2]
      exact List.Pairwise.nil
    · rw [if_neg h2]
      by_cases h3 : listMax sims < min_score
      · rw [if_pos h3]
        exact List.Pairwise.nil
      · rw [if_neg h3]
        refine List.pairwise_map.2 ?_
        refine (searchIdx_pairwise sims top_n).imp ?_
        intro i j hij
        rcases hij with h | ⟨h, _⟩
        · exact le_of_lt h
        · exact le_of_eq h

/-- C10 (amended): whenever the normalized query is non-empty, `top_n ≥ 1`,
the similarity vector has one entry per catalog row, its maximum is at
least `min_score`, and the catalog contains at least `top_n` movies,
`search_movie` returns exactly `top_n` rows — the slice pads the result
with the lowest-similarity movies regardless of their own scores. -/
theorem search_returns_exactly_topn (query : List Char) (movies : List Movie)
    (sims : List ℚ) (top_n : ℕ) (min_score : ℚ)
    (hq : pyStrip (clean_title query) ≠ [])
    (hn : 1 ≤ top_n)
    (hlen : sims.length = movies.length)
    (hcat : top_n ≤ movies.length)
    (hmax : min_score ≤ listMax sims) :
    (search_movie query movies sims top_n min_score).length = top_n := by
  unfold search_movie
  rw [if_neg (by simpa [List.isEmpty_iff] using hq),
    if_neg (by omega : ¬sims.length = 0),
    if_neg (not_lt.2 hmax)]
  unfold searchIdx tailSlice
  rw [if_neg (by omega : ¬top_n = 0), List.length_map, List.length_reverse,
    List.length_drop, length_argsort]
  omega

/-! ### Lemmas: counting distinct users -/

lemma nodup_subset_length {l1 l2 : List ℤ} (h : l1.Nodup) (hs : l1 ⊆ l2) :
    l1.length ≤ l2.length := by
  calc l1.length = l1.toFinset.card := (List.toFinset_card_of_nodup h).symm
    _ ≤ l2.toFinset.card :=
      Finset.card_le_card (fun a ha => List.mem_toFinset.2 (hs (List.mem_toFinset.1 ha)))
    _ ≤ l2.length := List.toFinset_card_le l2

/-- Rating rows selected by a predicate that pins the movie and keeps the
user inside a duplicate-free user list are at most as many as those
users, provided no (user, movie) pair occurs on two rows. -/
lemma countP_le_nodup_users (l : List Rating) (q : Rating → Bool) (m : ℤ) (users : List ℤ)
    (hU : (l.map (fun r => (r.userId, r.movieId))).Nodup)
    (hm : ∀ r ∈ l, q r = true → r.movieId = m)
    (hu : ∀ r ∈ l, q r = true → r.userId ∈ users) :
    l.countP q ≤ users.length := by
  have hp : ((l.filter q).map (fun r => (r.userId, r.movieId))).Nodup :=
    List.Nodup.sublist ((List.filter_sublist l).map (fun r => (r.userId, r.movieId))) hU
  have hnodup : ((l.filter q).map (fun r => r.userId)).Nodup := by
    rw [List.Nodup, List.pairwise_map]
    rw [List.Nodup, List.pairwise_map] at hp
    refine hp.imp_of_mem ?_
    intro r r2 hr hr2 hpair hid
    have h1 := List.mem_filter.1 hr
    have h2 := List.mem_filter.1 hr2
    apply hpair
    rw [hid, hm r h1.1 h1.2, hm r2 h2.1 h2.2]
  have hsub : (l.filter q).map (fun r => r.userId) ⊆ users := by
    intro x hx
    rcases List.mem_map.1 hx with ⟨r, hr, rfl⟩
    have h1 := List.mem_filter.1 hr
    exact hu r h1.1 h1.2
  calc l.countP q = ((l.filter q).map (fun r => r.userId)).length := by
        rw [List.length_map, List.countP_eq_length_filter]
    _ ≤ users.length := nodup_subset_length hnodup hsub

lemma count_simRecs_eq_countP (ratings : List Rating) (seed m : ℤ) :
    (simRecs ratings seed).count m =
      ratings.countP (fun r => (r.movieId == m) &&
        decide (r.userId ∈ similarUsers ratings seed ∧ 4 ≤ r.rating)) := by
  unfold simRecs
  rw [List.count_eq_countP, List.countP_map, List.countP_filter]
  rfl

lemma count_allRecs_eq_countP (ratings : List Rating) (seed : ℤ) (minFrac : ℚ) (m : ℤ) :
    (((allRecs ratings seed minFrac).map (fun r => r.movieId)).count m) =
      ratings.countP (fun r => (r.movieId == m) &&
        decide (r.movieId ∈ (simFrac ratings seed minFrac).map Prod.fst ∧ 4 ≤ r.rating)) := by
  unfold allRecs
  rw [List.count_eq_countP, List.countP_map, List.countP_filter]
  rfl

/-! ### Lemmas: descending sort, lookup, and output membership -/

lemma mem_insertDesc {key : α → ℚ} {a x : α} {l : List α} :
    x ∈ insertDesc key a l ↔ x = a ∨ x ∈ l := by
  induction l with
  | nil => simp [insertDesc]
  | cons b bs ih =>
    by_cases h : key b ≤ key a
    · simp only [insertDesc, if_pos h, List.mem_cons]
    · simp only [insertDesc, if_neg h, List.mem_cons, ih]
      tauto

lemma mem_sortDesc {key : α → ℚ} {x : α} {l : List α} : x ∈ sortDesc key l ↔ x ∈ l := by
  induction l with
  | nil => simp [sortDesc]
  | cons a as ih => simp [sortDesc, mem_insertDesc, ih]

lemma lookupD_map_keys (keys : List ℤ) (f : ℤ → ℚ) (m : ℤ) (d : ℚ) :
    lookupD (keys.map (fun k => (k, f k))) m d = if m ∈ keys then f m else d := by
  induction keys with
  | nil => simp [lookupD]
  | cons k ks ih =>
    simp only [List.map_cons, lookupD]
    by_cases h : k = m
    · subst h
      simp
    · rw [if_neg h, ih]
      by_cases h2 : m ∈ ks
      · rw [if_pos h2, if_pos (List.mem_cons_of_mem k h2)]
      · rw [if_neg h2, if_neg (by simp [List.mem_cons, Ne.symm h, h2])]

/-- The filtered co-liked table in mapped form: keys are the distinct
co-liked movies that pass the threshold, values are the per-movie counts
over the fan count. -/
lemma simFrac_eq_map (ratings : List Rating) (seed : ℤ) (minFrac : ℚ) :
    simFrac ratings seed minFrac =
      ((simRecs ratings seed).dedup.filter
        (fun m => decide (minFrac < ((simRecs ratings seed).count m : ℚ) /
          ((similarUsers ratings seed).length : ℚ)))).map
        (fun m => (m, ((simRecs ratings seed).count m : ℚ) /
          ((similarUsers ratings seed).length : ℚ))) := by
  unfold simFrac simFracAll
  rw [List.filter_map]
  rfl

/-- Any row of the returned frame comes from a `rec_percentages` row, with
the guards of the early returns known to have failed, and with title and
genres determined by the left merge. -/
lemma mem_find_similar {seed : ℤ} {movies : List Movie} {ratings : List Rating}
    {minFrac : ℚ} {row : RecRow}
    (h : row ∈ find_similar_movies seed movies ratings minFrac) :
    similarUsers ratings seed ≠ [] ∧
      numAllUsers ratings seed minFrac ≠ 0 ∧
      ∃ pre ∈ recPercentages ratings seed minFrac,
        row.score = pre.score ∧ row.similar = pre.similar ∧ row.all = pre.all ∧
          row.movieId = pre.movieId ∧
          ((row.title = none ∧ row.genres = none ∧
              ∀ mv ∈ movies, mv.movieId ≠ row.movieId) ∨
            (∃ mv ∈ movies, mv.movieId = row.movieId ∧ row.title = some mv.title ∧
              row.genres = some mv.genres)) := by
  unfold find_similar_movies at h
  by_cases h1 : (similarUsers ratings seed).isEmpty = true
  · rw [if_pos h1] at h
    exact absurd h (List.not_mem_nil row)
  · rw [if_neg h1] at h
    by_cases h2 : (simRecs ratings seed).isEmpty = true
    · rw [if_pos h2] at h
      exact absurd h (List.not_mem_nil row)
    · rw [if_neg h2] at h
      by_cases h3 : (simFrac ratings seed minFrac).isEmpty = true
      · rw [if_pos h3] at h
        exact absurd h (List.not_mem_nil row)
      · rw [if_neg h3] at h
        by_cases h4 : numAllUsers ratings seed minFrac = 0
        · rw [if_pos h4] at h
          exact absurd h (List.not_mem_nil row)
        · rw [if_neg h4] at h
          refine ⟨fun hnil => h1 (by simp [hnil]), h4, ?_⟩
          unfold leftMerge at h
          rcases List.mem_flatMap.1 h with ⟨pre, hpre, hrow⟩
          refine ⟨pre, mem_sortDesc.1 (List.take_subset 20 _ hpre), ?_⟩
          by_cases hms : (movies.filter (fun mv => decide (mv.movieId = pre.movieId))).isEmpty = true
          · rw [if_pos hms] at hrow
            rcases List.mem_singleton.1 hrow with rfl
            refine ⟨rfl, rfl, rfl, rfl, Or.inl ⟨rfl, rfl, ?_⟩⟩
            intro mv hmv heq
            have hnil := List.isEmpty_iff.1 hms
            have := List.filter_eq_nil_iff.1 hnil mv hmv
            simp only [decide_eq_true_eq] at this
            exact this heq
          · rw [if_neg hms] at hrow
            rcases List.mem_map.1 hrow with ⟨mv, hmv, rfl⟩
            have h5 := List.mem_filter.1 hmv
            simp only [decide_eq_true_eq] at h5
            exact ⟨rfl, rfl, rfl, rfl, Or.inr ⟨mv, h5.1, h5.2, rfl, rfl⟩⟩

lemma mem_recPercentages {ratings : List Rating} {seed : ℤ} {minFrac : ℚ} {pre : RecPre}
    (h : pre ∈ recPercentages ratings seed minFrac) :
    pre.movieId ∈ recKeys ratings seed minFrac ∧
      pre.similar = lookupD (simFrac ratings seed minFrac) pre.movieId 0 ∧
      pre.all = lookupD (allFracList ratings seed minFrac) pre.movieId 0 ∧
      pre.score = if 0 < pre.all then pre.similar / pre.all else 0 := by
  unfold recPercentages at h
  rcases List.mem_map.1 h with ⟨m, hm, rfl⟩
  exact ⟨hm, rfl, rfl, rfl⟩

lemma map_fst_map_pair (keys : List ℤ) (f : ℤ → ℚ) :
    (keys.map (fun k => (k, f k))).map Prod.fst = keys := by
  rw [List.map_map]
  exact List.map_id keys

lemma simFrac_lookup_nonneg (ratings : List Rating) (seed : ℤ) (minFrac : ℚ) (m : ℤ) :
    0 ≤ lookupD (simFrac ratings seed minFrac) m 0 := by
  rw [simFrac_eq_map, lookupD_map_keys]
  split
  · exact div_nonneg (Nat.cast_nonneg _) (Nat.cast_nonneg _)
  · exact le_refl 0

lemma allFrac_lookup_nonneg (ratings : List Rating) (seed : ℤ) (minFrac : ℚ) (m : ℤ) :
    0 ≤ lookupD (allFracList ratings seed minFrac) m 0 := by
  unfold allFracList
  rw [lookupD_map_keys]
  split
  · exact div_nonneg (Nat.cast_nonneg _) (Nat.cast_nonneg _)
  · exact le_refl 0

/-- Every movie surviving the threshold filter has a qualifying rating row,
hence it also appears among the baseline rows. -/
lemma mem_simFrac_keys_subset_allKeys {ratings : List Rating} {seed : ℤ} {minFrac : ℚ} {m : ℤ}
    (h : m ∈ (simFrac ratings seed minFrac).map Prod.fst) :
    m ∈ (allRecs ratings seed minFrac).map (fun r => r.movieId) := by
  have hkeys := h
  rw [simFrac_eq_map, map_fst_map_pair] at hkeys
  have hded := List.mem_filter.1 hkeys
  have hrec : m ∈ simRecs ratings seed := List.mem_dedup.1 hded.1
  unfold simRecs at hrec
  rcases List.mem_map.1 hrec with ⟨r, hr, rfl⟩
  have h1 := List.mem_filter.1 hr
  simp only [decide_eq_true_eq] at h1
  refine List.mem_map.2 ⟨r, ?_, rfl⟩
  unfold allRecs
  refine List.mem_filter.2 ⟨h1.1, ?_⟩
  simp only [decide_eq_true_eq]
  exact ⟨h, h1.2.2⟩

lemma recKeys_subset_allKeys {ratings : List Rating} {seed : ℤ} {minFrac : ℚ} {m : ℤ}
    (h : m ∈ recKeys ratings seed minFrac) :
    m ∈ (allRecs ratings seed minFrac).map (fun r => r.movieId) := by
  unfold recKeys at h
  rcases List.mem_append.1 (List.mem_dedup.1 h) with h | h
  · exact mem_simFrac_keys_subset_allKeys h
  · unfold allFracList at h
    rw [map_fst_map_pair] at h
    exact List.mem_dedup.1 h

lemma allFrac_lookup_pos {ratings : List Rating} {seed : ℤ} {minFrac : ℚ} {m : ℤ}
    (hnum : numAllUsers ratings seed minFrac ≠ 0)
    (hmem : m ∈ (allRecs ratings seed minFrac).map (fun r => r.movieId)) :
    0 < lookupD (allFracList ratings seed minFrac) m 0 := by
  unfold allFracList
  rw [lookupD_map_keys, if_pos (List.mem_dedup.2 hmem)]
  apply div_pos
  · exact_mod_cast List.count_pos_iff.2 hmem
  · exact_mod_cast Nat.pos_of_ne_zero hnum

/-! ### Claims C1, C6, C8 -/

/-- C1 (amended): a row returned by `find_similar_movies` has null title and
genres exactly when its movieId has no catalog match — unmatched rows are
retained by the left merge with missing metadata, not dropped and not
errored. -/
theorem find_similar_left_merge_null_iff_unmatched (seed : ℤ) (movies : List Movie)
    (ratings : List Rating) (minFrac : ℚ) (row : RecRow)
    (h : row ∈ find_similar_movies seed movies ratings minFrac) :
    (row.title = none ∧ row.genres = none) ↔ row.movieId ∉ movies.map Movie.movieId := by
  rcases mem_find_similar h with ⟨-, -, pre, hpre, -, -, -, -, hmerge⟩
  rcases hmerge with ⟨ht, hg, hforall⟩ | ⟨mv, hmv, heq, ht, hg⟩
  · constructor
    · intro _ hmem
      rcases List.mem_map.1 hmem with ⟨mv, hmv, hid⟩
      exact hforall mv hmv hid
    · intro _
      exact ⟨ht, hg⟩
  · constructor
    · intro hcon
      rw [ht] at hcon
      exact absurd hcon.1 (by simp)
    · intro hnot
      exact absurd (List.mem_map.2 ⟨mv, hmv, heq⟩) hnot

/-- C6 (confirmed): for every returned row, the score is the ratio
`similar / all` when `all > 0` and `0` when `all = 0`, and it is always a
well-defined non-negative rational — the embedding works in exact
arithmetic, where the code's NaN/infinity replacement branch is the
explicit zero fallback modelled here. -/
theorem find_similar_score_ratio_or_zero (seed : ℤ) (movies : List Movie)
    (ratings : List Rating) (minFrac : ℚ) (row : RecRow)
    (h : row ∈ find_similar_movies seed movies ratings minFrac) :
    0 ≤ row.score ∧ (0 < row.all → row.score = row.similar / row.all) ∧
      (row.all = 0 → row.score = 0) := by
  rcases mem_find_similar h with ⟨-, -, pre, hpre, hs, hsim, hall, -, -⟩
  rcases mem_recPercentages hpre with ⟨-, hps, hpa, hpscore⟩
  have h0s : 0 ≤ pre.similar := by
    rw [hps]
    exact simFrac_lookup_nonneg ratings seed minFrac pre.movieId
  have h0a : 0 ≤ pre.all := by
    rw [hpa]
    exact allFrac_lookup_nonneg ratings seed minFrac pre.movieId
  refine ⟨?_, ?_, ?_⟩
  · rw [hs, hpscore]
    split
    · exact div_nonneg h0s h0a
    · exact le_refl 0
  · intro hpos
    rw [hall] at hpos
    rw [hs, hpscore, if_pos hpos, hsim, hall]
  · intro hz
    rw [hall] at hz
    rw [hs, hpscore, if_neg (by rw [hz]; exact lt_irrefl 0)]

/-- C8 (confirmed): every returned row has a strictly positive `all`
fraction — each surviving movie has at least one qualifying rating row,
whose user necessarily belongs to the baseline population — so the score
is always computed as `similar / all` and the zero fallback is
unreachable on returned rows. -/
theorem find_similar_all_fraction_positive (seed : ℤ) (movies : List Movie)
    (ratings : List Rating) (minFrac : ℚ) (row : RecRow)
    (h : row ∈ find_similar_movies seed movies ratings minFrac) :
    0 < row.all ∧ row.score = row.similar / row.all := by
  rcases mem_find_similar h with ⟨-, hnum, pre, hpre, hs, hsim, hall, -, -⟩
  rcases mem_recPercentages hpre with ⟨hkeys, -, hpa, hpscore⟩
  have hpos : 0 < pre.all := by
    rw [hpa]
    exact allFrac_lookup_pos hnum (recKeys_subset_allKeys hkeys)
  refine ⟨by rw [hall]; exact hpos, ?_⟩
  rw [hs, hpscore, if_pos hpos, hsim, hall]

/-! ### Claim C5 -/

lemma simFrac_lookup_le_one {ratings : List Rating} {seed : ℤ} (minFrac : ℚ) (m : ℤ)
    (hU : (ratings.map (fun r => (r.userId, r.movieId))).Nodup) :
    lookupD (simFrac ratings seed minFrac) m 0 ≤ 1 := by
  rw [simFrac_eq_map, lookupD_map_keys]
  split
  · by_cases hlen : (similarUsers ratings seed).length = 0
    · rw [hlen]
      simp
    · have hcount : (simRecs ratings seed).count m ≤ (similarUsers ratings seed).length := by
        rw [count_simRecs_eq_countP]
        refine countP_le_nodup_users ratings _ m (similarUsers ratings seed) hU ?_ ?_
        · intro r _ hq
          rw [Bool.and_eq_true] at hq
          exact eq_of_beq hq.1
        · intro r _ hq
          rw [Bool.and_eq_true] at hq
          exact (of_decide_eq_true hq.2).1
      rw [div_le_one (by exact_mod_cast Nat.pos_of_ne_zero hlen)]
      exact_mod_cast hcount
  · exact zero_le_one

lemma allFrac_lookup_le_one {ratings : List Rating} {seed : ℤ} (minFrac : ℚ) (m : ℤ)
    (hU : (ratings.map (fun r => (r.userId, r.movieId))).Nodup) :
    lookupD (allFracList ratings seed minFrac) m 0 ≤ 1 := by
  unfold allFracList
  rw [lookupD_map_keys]
  split
  · by_cases hnum : numAllUsers ratings seed minFrac = 0
    · rw [hnum]
      simp
    · have hcount : ((allRecs ratings seed minFrac).map (fun r => r.movieId)).count m ≤
          numAllUsers ratings seed minFrac := by
        rw [count_allRecs_eq_countP]
        unfold numAllUsers
        refine countP_le_nodup_users ratings _ m
          ((allRecs ratings seed minFrac).map (fun r => r.userId)).dedup hU ?_ ?_
        · intro r _ hq
          rw [Bool.and_eq_true] at hq
          exact eq_of_beq hq.1
        · intro r hr hq
          rw [Bool.and_eq_true] at hq
          refine List.mem_dedup.2 (List.mem_map.2 ⟨r, ?_, rfl⟩)
          unfold allRecs
          exact List.mem_filter.2 ⟨hr, hq.2⟩
      rw [div_le_one (by exact_mod_cast Nat.pos_of_ne_zero hnum)]
      exact_mod_cast hcount
  · exact zero_le_one

/-- C5 (amended): for a ratings table with at most one rating row per
(userId, movieId) pair — the shape of the source dataset — every row
returned by `find_similar_movies` has `similarFraction` and
`allFraction` in `[0, 1]`; with duplicated pairs the fractions can
exceed 1, since `value_counts` counts rows while the denominators count
distinct users. -/
theorem find_similar_fractions_in_unit_interval (seed : ℤ) (movies : List Movie)
    (ratings : List Rating) (minFrac : ℚ) (row : RecRow)
    (hU : (ratings.map (fun r => (r.userId, r.movieId))).Nodup)
    (h : row ∈ find_similar_movies seed movies ratings minFrac) :
    0 ≤ row.similar ∧ row.similar ≤ 1 ∧ 0 ≤ row.all ∧ row.all ≤ 1 := by
  rcases mem_find_similar h with ⟨-, -, pre, hpre, -, hsim, hall, -, -⟩
  rcases mem_recPercentages hpre with ⟨-, hps, hpa, -⟩
  rw [hsim, hall, hps, hpa]
  exact ⟨simFrac_lookup_nonneg ratings seed minFrac pre.movieId,
    simFrac_lookup_le_one minFrac pre.movieId hU,
    allFrac_lookup_nonneg ratings seed minFrac pre.movieId,
    allFrac_lookup_le_one minFrac pre.movieId hU⟩

/-! ### Claim C9 -/

lemma mem_similarUsers_iff {ratings : List Rating} {seed u : ℤ} :
    u ∈ similarUsers ratings seed ↔
      ∃ r ∈ ratings, r.userId = u ∧ r.movieId = seed ∧ 4 ≤ r.rating := by
  unfold similarUsers
  rw [List.mem_dedup, List.mem_map]
  constructor
  · rintro ⟨r, hr, rfl⟩
    have h1 := List.mem_filter.1 hr
    simp only [decide_eq_true_eq] at h1
    exact ⟨r, h1.1, rfl, h1.2.1, h1.2.2⟩
  · rintro ⟨r, hr, hu, hs, hrat⟩
    exact ⟨r, List.mem_filter.2 ⟨hr, by simp [hs, hrat]⟩, hu⟩

/-- Under one-rating-per-pair, the seed's row count among fan likes equals
the fan count: every fan contributed exactly one seed row. -/
lemma count_seed_eq_fans {ratings : List Rating} {seed : ℤ}
    (hU : (ratings.map (fun r => (r.userId, r.movieId))).Nodup) :
    (simRecs ratings seed).count seed = (similarUsers ratings seed).length := by
  refine le_antisymm ?_ ?_
  · rw [count_simRecs_eq_countP]
    refine countP_le_nodup_users ratings _ seed (similarUsers ratings seed) hU ?_ ?_
    · intro r _ hq
      rw [Bool.and_eq_true] at hq
      exact eq_of_beq hq.1
    · intro r _ hq
      rw [Bool.and_eq_true] at hq
      exact (of_decide_eq_true hq.2).1
  · rw [count_simRecs_eq_countP, List.countP_eq_length_filter]
    have hsub : similarUsers ratings seed ⊆
        (ratings.filter (fun r => (r.movieId == seed) &&
          decide (r.userId ∈ similarUsers ratings seed ∧ 4 ≤ r.rating))).map
          (fun r => r.userId) := by
      intro u hu
      rcases mem_similarUsers_iff.1 hu with ⟨r, hr, hru, hrm, hrat⟩
      refine List.mem_map.2 ⟨r, ?_, hru⟩
      refine List.mem_filter.2 ⟨hr, ?_⟩
      rw [Bool.and_eq_true]
      exact ⟨beq_iff_eq.2 hrm, decide_eq_true ⟨hru ▸ hu, hrat⟩⟩
    have h2 := nodup_subset_length (List.nodup_dedup _) hsub
    rw [List.length_map] at h2
    exact h2

/-- C9 (confirmed): the candidate set never excludes the seed movie; for a
one-rating-per-pair table, a non-empty fan set, and a threshold below 1,
the seed itself survives with `similarFraction` exactly 1 (every fan
liked it by definition), so the recommendation list can contain the seed
movie. -/
theorem find_similar_seed_in_candidates (seed : ℤ) (ratings : List Rating) (minFrac : ℚ)
    (hU : (ratings.map (fun r => (r.userId, r.movieId))).Nodup)
    (hf : similarUsers ratings seed ≠ [])
    (hmf : minFrac < 1) :
    (seed, (1 : ℚ)) ∈ simFrac ratings seed minFrac := by
  have hlen : 0 < (similarUsers ratings seed).length := List.length_pos.2 hf
  have hseed : seed ∈ simRecs ratings seed := by
    rcases List.exists_mem_of_ne_nil _ hf with ⟨u, hu⟩
    rcases mem_similarUsers_iff.1 hu with ⟨r, hr, hru, hrm, hrat⟩
    unfold simRecs
    refine List.mem_map.2 ⟨r, ?_, hrm⟩
    exact List.mem_filter.2 ⟨hr, decide_eq_true ⟨hru ▸ hu, hrat⟩⟩
  have hval : ((simRecs ratings seed).count seed : ℚ) /
      ((similarUsers ratings seed).length : ℚ) = 1 := by
    rw [count_seed_eq_fans hU]
    exact div_self (Nat.cast_ne_zero.2 (by omega))
  rw [simFrac_eq_map]
  refine List.mem_map.2 ⟨seed, ?_, ?_⟩
  · refine List.mem_filter.2 ⟨List.mem_dedup.2 hseed, decide_eq_true ?_⟩
    rw [hval]
    exact hmf
  · rw [hval]

/-! ### Witnesses -/

section ConcreteWitnesses

/- Re-expose the irreducible rational operations so that `decide` can
discharge the concrete hypotheses of the witnesses. -/
attribute [local semireducible] Rat.mul Rat.inv Rat.add Rat.sub Rat.ofScientific

/-- Witness for C1 (amended) at the fixture: the returned row for movie 10
is matched by the catalog, so its metadata is present and its movieId
occurs among the catalog ids. -/
theorem find_similar_left_merge_witness :
    ((some ("Movie10") = (none : Option String) ∧
        some ("Drama") = (none : Option String)) ↔
      (10 : ℤ) ∉ fixtureMovies.map Movie.movieId) :=
  find_similar_left_merge_null_iff_unmatched 10 fixtureMovies fixtureRatings 0
    ⟨1, 1, 1, 10, some ("Movie10"), some ("Drama")⟩ (by decide)

/-- Witness for C2 (amended) at a concrete search whose result is
non-empty. -/
theorem search_nonempty_max_witness : (1 / 2 : ℚ) ≤ listMax [0, 1] :=
  search_nonempty_implies_max_above_min_score (("a").data)
    [⟨1, ("A"), ("G1")⟩, ⟨2, ("B"), ("G2")⟩] [0, 1] 2 (1 / 2) (by decide)

/-- Witness for C5 (amended) at the fixture, whose (user, movie) pairs are
pairwise distinct. -/
theorem find_similar_fractions_witness :
    (0 : ℚ) ≤ 1 ∧ (1 : ℚ) ≤ 1 ∧ (0 : ℚ) ≤ 1 ∧ (1 : ℚ) ≤ 1 :=
  find_similar_fractions_in_unit_interval 10 fixtureMovies fixtureRatings 0
    ⟨1, 1, 1, 10, some ("Movie10"), some ("Drama")⟩ (by decide) (by decide)

/-- Witness for C6 at the fixture row for movie 10. -/
theorem find_similar_score_witness :
    (0 : ℚ) ≤ 1 ∧ ((0 : ℚ) < 1 → (1 : ℚ) = 1 / 1) ∧ ((1 : ℚ) = 0 → (1 : ℚ) = 0) :=
  find_similar_score_ratio_or_zero 10 fixtureMovies fixtureRatings 0
    ⟨1, 1, 1, 10, some ("Movie10"), some ("Drama")⟩ (by decide)

/-- Witness for C8 at the fixture row for movie 10. -/
theorem find_similar_all_fraction_witness :
    (0 : ℚ) < 1 ∧ (1 : ℚ) = 1 / 1 :=
  find_similar_all_fraction_positive 10 fixtureMovies fixtureRatings 0
    ⟨1, 1, 1, 10, some ("Movie10"), some ("Drama")⟩ (by decide)

/-- Witness for C9 at the fixture: movie 10 itself is a candidate with
`similarFraction` exactly 1. -/
theorem find_similar_seed_witness :
    ((10 : ℤ), (1 : ℚ)) ∈ simFrac fixtureRatings 10 0 :=
  find_similar_seed_in_candidates 10 fixtureRatings 0 (by decide) (by decide) (by decide)

/-- Witness for C10 (amended) at a one-movie catalog with `top_n = 1`. -/
theorem search_returns_exactly_topn_witness :
    (search_movie (("a").data) [⟨1, ("A"), ("G")⟩] [1] 1 0).length = 1 :=
  search_returns_exactly_topn (("a").data) [⟨1, ("A"), ("G")⟩] [1] 1 0
    (by decide) (by decide) (by decide) (by decide) (by decide)

end ConcreteWitnesses
